import Mathlib

/-!
Verification of the `cv_resume_latex` utility scripts.

This file gives a shallow embedding of the Python scripts
`utils/build_section.py`, `utils/status.py` and `utils/generate_bibfiles.py`
and proves properties of the embedded definitions.

Modelling conventions:
* Python strings are modelled by Lean `String`, with all primitive
  operations implemented over the underlying `List Char` so that they
  mirror the Python semantics (`str.strip`, `str.split`, `str.startswith`,
  slicing).  Whitespace is the common ASCII whitespace recognised by
  `Char.isWhitespace`; digits are the ASCII digits, matching the intended
  ASCII metadata files.
* Python `dict`s (which preserve insertion order, update a key in place,
  and append new keys at the end) are modelled by ordered association
  lists with `dictGet` / `dictInsert` / `dictPop`.
* A Python function that can raise an exception is modelled with an
  `Option` result, `none` marking the raised exception.
-/

/-- A property value stored by the metadata parser: Python `str`, `int`
(always produced from a digit string, hence a `Nat`), or list of strings. -/
inductive Value where
  | str : String → Value
  | int : Nat → Value
  | list : List String → Value
deriving DecidableEq

/-- Lookup in an ordered association list: the first binding of the key,
as in a Python `dict` (whose keys are unique). -/
def dictGet {α : Type} (d : List (String × α)) (k : String) : Option α :=
  match d with
  | [] => none
  | (k', v) :: rest => if k' = k then some v else dictGet rest k

/-- Python `d[k] = v`: update the first binding of `k` in place (keeping
its position), or append a new binding at the end. -/
def dictInsert {α : Type} (d : List (String × α)) (k : String) (v : α) :
    List (String × α) :=
  match d with
  | [] => [(k, v)]
  | (k', v') :: rest => if k' = k then (k, v) :: rest else (k', v') :: dictInsert rest k v

/-- Python `d.pop(k, None)`: remove the first binding of `k`, if any. -/
def dictPop {α : Type} (d : List (String × α)) (k : String) : List (String × α) :=
  match d with
  | [] => []
  | (k', v') :: rest => if k' = k then rest else (k', v') :: dictPop rest k

/-- Properties of one unit: an ordered mapping from property name to value. -/
abbrev Props := List (String × Value)

/-- The units of one section: an ordered mapping from unit name to properties. -/
abbrev UnitMap := List (String × Props)

/-- The whole parsed metadata: an ordered mapping from section name to units. -/
abbrev Metadata := List (String × UnitMap)

instance decEqStringUnitMap : DecidableEq (String × UnitMap) := inferInstance

instance decEqMetadata : DecidableEq Metadata :=
  inferInstanceAs (DecidableEq (List (String × UnitMap)))

/-- Drop the longest suffix of characters satisfying `p` (for `str.rstrip`). -/
def dropTrailing (p : Char → Bool) (l : List Char) : List Char :=
  (l.reverse.dropWhile p).reverse

/-- Python `str.rstrip()` on the character list. -/
def rstripC (l : List Char) : List Char :=
  dropTrailing Char.isWhitespace l

/-- Python `str.strip()` on the character list. -/
def stripC (l : List Char) : List Char :=
  dropTrailing Char.isWhitespace (l.dropWhile Char.isWhitespace)

/-- Python `str.rstrip()`. -/
def pyRstrip (s : String) : String := ⟨rstripC s.data⟩

/-- Python `str.strip()`. -/
def pyStrip (s : String) : String := ⟨stripC s.data⟩

/-- Python `s.endswith(c)` for a single character `c`. -/
def lastIs (l : List Char) (c : Char) : Bool :=
  match l.getLast? with
  | some x => x = c
  | none => false

/-- Python `s.split(c)` for a single separator character: always returns a
non-empty list of parts; the empty string yields one empty part. -/
def splitOnChar (c : Char) : List Char → List (List Char)
  | [] => [[]]
  | x :: xs =>
    let r := splitOnChar c xs
    if x = c then [] :: r
    else
      match r with
      | [] => [[x]]
      | h :: t => (x :: h) :: t

/-- Python `s.split(c, 1)` when `c` occurs in `s`: the part before the
first occurrence of `c` and the part after it. -/
def splitFirstAt (c : Char) : List Char → List Char × List Char
  | [] => ([], [])
  | x :: xs =>
    if x = c then ([], xs)
    else
      let r := splitFirstAt c xs
      (x :: r.1, r.2)

/-- Python `str.isdigit()` restricted to ASCII digits. -/
def isDigits (l : List Char) : Bool :=
  !l.isEmpty && l.all Char.isDigit

/-- Python `int(s)` on a string of ASCII digits. -/
def digitsToNat (l : List Char) : Nat :=
  l.foldl (fun n c => n * 10 + (c.toNat - 48)) 0

/-- Remove one surrounding pair of double quotes, as `load_metadata` does
for string property values. -/
def stripQuotes (value : String) : String :=
  if ['"'].isPrefixOf value.data && lastIs value.data '"' then
    ⟨(value.data.drop 1).dropLast⟩
  else value

/-- Python list items `[tag.strip() for tag in inner.split(",") if tag.strip()]`. -/
def parseListItems (inner : List Char) : List String :=
  (((splitOnChar ',' inner).map stripC).filter (fun t => !t.isEmpty)).map
    (fun t => (⟨t⟩ : String))

/-- The value-typing cascade of `load_metadata` (build_section.py lines 61-73,
status.py lines 53-62), applied to the already stripped value text: a list
when bracketed, an int when all digits, otherwise a string with one pair of
surrounding double quotes removed. -/
def parseValue (value : String) : Value :=
  let v := value.data
  if ['['].isPrefixOf v && lastIs v ']' then
    Value.list (parseListItems ((v.drop 1).dropLast))
  else if isDigits v then
    Value.int (digitsToNat v)
  else
    Value.str (stripQuotes value)

/-- Line class of `load_metadata`: blank line or `#` comment (after stripping). -/
def isBlankOrComment (line : String) : Bool :=
  (stripC line.data).isEmpty || ['#'].isPrefixOf (stripC line.data)

/-- Line class of `load_metadata`: a top-level section line
(`line.endswith(':') and not line.startswith(' ')`). -/
def isSectionLine (line : String) : Bool :=
  lastIs line.data ':' && !([' '].isPrefixOf line.data)

/-- Line class of `load_metadata`: a unit line (starts with two but not four
spaces and ends with a colon). -/
def isUnitLine (line : String) : Bool :=
  [' ', ' '].isPrefixOf line.data && lastIs line.data ':' &&
    !([' ', ' ', ' ', ' '].isPrefixOf line.data)

/-- Line class of `load_metadata`: a property line (starts with four spaces
and contains a colon). -/
def isPropLine (line : String) : Bool :=
  [' ', ' ', ' ', ' '].isPrefixOf line.data && line.data.contains ':'

/-- Parser state of `load_metadata`: the metadata built so far and the
`current_section` / `current_unit` variables (`none` models Python `None`). -/
structure PState where
  metadata : Metadata
  currentSection : Option String
  currentUnit : Option String
deriving DecidableEq

/-- Python truthiness of `current_section` / `current_unit`: not `None`
and not the empty string. -/
def truthy : Option String → Bool
  | none => false
  | some s => !s.data.isEmpty

/-- One iteration of the line loop of `load_metadata`
(build_section.py lines 34-73).  Returns `none` exactly where the Python
code raises `KeyError`: on a property (or unit) line reached while the
current section or unit name is not a key of the mapping being indexed. -/
def processLine (st : PState) (raw : String) : Option PState :=
  let line := pyRstrip raw
  if isBlankOrComment line then some st
  else if isSectionLine line then
    let sec : String := ⟨line.data.dropLast⟩
    some { st with metadata := dictInsert st.metadata sec [], currentSection := some sec }
  else if isUnitLine line then
    let u : String := ⟨(stripC line.data).dropLast⟩
    if truthy st.currentSection then
      match dictGet st.metadata (st.currentSection.getD "") with
      | some units =>
        some { st with
          metadata := dictInsert st.metadata (st.currentSection.getD "")
            (dictInsert units u []),
          currentUnit := some u }
      | none => none
    else some { st with currentUnit := some u }
  else if isPropLine line then
    let kv := splitFirstAt ':' (stripC line.data)
    let key : String := ⟨kv.1⟩
    let value : String := ⟨stripC kv.2⟩
    if truthy st.currentSection && truthy st.currentUnit then
      match dictGet st.metadata (st.currentSection.getD "") with
      | none => none
      | some units =>
        match dictGet units (st.currentUnit.getD "") with
        | none => none
        | some props =>
          let units' := dictInsert units (st.currentUnit.getD "")
            (dictInsert props key (parseValue value))
          some { st with
            metadata := dictInsert st.metadata (st.currentSection.getD "") units' }
    else some st
  else some st

/-- Run the line loop of `load_metadata` from a given state. -/
def loadFrom (st : PState) : List String → Option PState
  | [] => some st
  | l :: ls =>
    match processLine st l with
    | some st' => loadFrom st' ls
    | none => none

/-- `load_metadata` of build_section.py applied to the lines of the
metadata file (the file-existence check is handled by the caller model
`run_main`); `none` models an uncaught `KeyError`. -/
def load_metadata (lines : List String) : Option Metadata :=
  (loadFrom ⟨[], none, none⟩ lines).map PState.metadata

/-- Python `unit_meta.get('tags', [])` in `build_section`, for metadata whose
`tags` property (when present) is a list.  On a non-list `tags` value the
Python code would instead do substring matching (for a string) or raise
`TypeError` (for an int); theorems about the tag filter therefore carry a
`tagsOk` hypothesis restricting to list-or-absent `tags`. -/
def get_tags (props : Props) : List String :=
  match dictGet props "tags" with
  | some (Value.list ts) => ts
  | _ => []

/-- Python `x[1].get('priority', 999)` in `build_section`, for metadata whose
`priority` property (when present) is an int.  On a non-int value the Python
sort could raise `TypeError`; theorems about the ordering therefore carry a
`priorityOk` hypothesis restricting to int-or-absent `priority`. -/
def get_priority (props : Props) : Nat :=
  match dictGet props "priority" with
  | some (Value.int n) => n
  | _ => 999

/-- The `tags` property is absent or a list (the domain on which `get_tags`
is faithful to the source). -/
def tagsOk (props : Props) : Bool :=
  match dictGet props "tags" with
  | some (Value.str _) => false
  | some (Value.int _) => false
  | _ => true

/-- The `priority` property is absent or an int (the domain on which
`get_priority` is faithful to the source). -/
def priorityOk (props : Props) : Bool :=
  match dictGet props "priority" with
  | some (Value.str _) => false
  | some (Value.list _) => false
  | _ => true

/-- Python truthiness of the `exclude_tags` argument (`None` and the empty
list are falsy). -/
def listTruthy : Option (List String) → Bool
  | none => false
  | some l => !l.isEmpty

/-- The tag filter of `build_section` (lines 97-108) applied to one unit:
skip when `exclude_tags` is truthy and the unit has one of its tags, keep
when the `tags` filter is `None` or the unit has one of the requested tags. -/
def unitIncluded (tags exclude_tags : Option (List String)) (props : Props) : Bool :=
  let unit_tags := get_tags props
  !(listTruthy exclude_tags && (exclude_tags.getD []).any (fun t => unit_tags.contains t)) &&
    (tags.isNone || (tags.getD []).any (fun t => unit_tags.contains t))

/-- The filtering loop of `build_section` (lines 97-108): the units of the
section, in metadata order, that pass the tag filter. -/
def filter_units (section_data : UnitMap) (tags exclude_tags : Option (List String)) :
    UnitMap :=
  section_data.filter (fun p => unitIncluded tags exclude_tags p.2)

/-- Stable insertion into a list sorted ascending by the priority key: the
new element goes before the first element of greater-or-equal priority, so
that an element inserted from earlier in the original list keeps its place
before equal-priority elements. -/
def insertByPriority (x : String × Props) : UnitMap → UnitMap
  | [] => [x]
  | y :: ys =>
    if get_priority x.2 ≤ get_priority y.2 then x :: y :: ys
    else y :: insertByPriority x ys

/-- The sort of `build_section` (line 111): Python `list.sort` is a stable
ascending sort by the key `unit_meta.get('priority', 999)`, modelled by a
stable insertion sort on the same key (extensionally equal to any stable
ascending sort, hence to Timsort). -/
def sort_units : UnitMap → UnitMap
  | [] => []
  | x :: xs => insertByPriority x (sort_units xs)

/-- Python truthiness of the `max_items` argument (`None` and `0` are falsy). -/
def intTruthy : Option Int → Bool
  | none => false
  | some n => n != 0

/-- Python slicing `l[:m]` for an arbitrary int `m`: the first `m` elements
when `m` is non-negative, all but the last `-m` elements when negative. -/
def pySliceTo {α : Type} (l : List α) (m : Int) : List α :=
  if 0 ≤ m then l.take m.toNat else l.take (l.length - (-m).toNat)

/-- The item limit of `build_section` (lines 114-115): slicing applies only
when `max_items` is truthy. -/
def limit_units (units : UnitMap) (max_items : Option Int) : UnitMap :=
  if intTruthy max_items then pySliceTo units (max_items.getD 0) else units

/-- The path `units/<section>/<unit>.tex` read by `build_section` (line 120). -/
def unit_path (section_name unit_name : String) : String :=
  "units/" ++ section_name ++ "/" ++ unit_name ++ ".tex"

/-- The content loop of `build_section` (lines 118-127) over an explicit
file system (a mapping from path to file content): the stripped content of
each selected unit's file, keeping only existing files with non-empty
stripped content. -/
def render_units (files : List (String × String)) (section_name : String)
    (units : UnitMap) : List String :=
  units.filterMap (fun p =>
    match dictGet files (unit_path section_name p.1) with
    | some content =>
      let c := pyStrip content
      if !c.data.isEmpty then some c else none
    | none => none)

/-- `build_section` of build_section.py (lines 77-133), over an already
loaded metadata mapping and an explicit file system: look up the section,
return the empty string when its data is missing or empty, otherwise
filter by tags, stably sort by priority, apply the item limit, and join
the units' file contents with one blank line (the final
`'\n\n'.join(section_content)`, which is also the empty string when no
unit contributed content). -/
def build_section (metadata : Metadata) (files : List (String × String))
    (section_name : String) (tags : Option (List String)) (max_items : Option Int)
    (exclude_tags : Option (List String)) : String :=
  let section_data := (dictGet metadata section_name).getD []
  if section_data.isEmpty then ""
  else
    let filtered_units := filter_units section_data tags exclude_tags
    let sorted_units := sort_units filtered_units
    let limited_units := limit_units sorted_units max_items
    let section_content := render_units files section_name limited_units
    String.intercalate "\n\n" section_content

/-- Outcome of one run of `main` in build_section.py: a `sys.exit` with a
code, an uncaught exception, or normal completion with the built content. -/
inductive ExitOutcome where
  | exited : Nat → ExitOutcome
  | raised : ExitOutcome
  | completed : String → ExitOutcome
deriving DecidableEq

/-- `main` of build_section.py (lines 148-212) without the header and
output-file options: `load_metadata` calls `sys.exit(1)` when the metadata
file is missing (lines 24-26); a `KeyError` in parsing propagates; empty
content causes `sys.exit(1)` (lines 191-193); otherwise the content is
produced. -/
def run_main (metadata_file_exists : Bool) (metadata_lines : List String)
    (files : List (String × String)) (section_name : String)
    (tags : Option (List String)) (max_items : Option Int)
    (exclude_tags : Option (List String)) : ExitOutcome :=
  if !metadata_file_exists then ExitOutcome.exited 1
  else
    match load_metadata metadata_lines with
    | none => ExitOutcome.raised
    | some metadata =>
      let content := build_section metadata files section_name tags max_items exclude_tags
      if content.data.isEmpty then ExitOutcome.exited 1
      else ExitOutcome.completed content

/-- Every unit listed in the metadata has its unit file present in the
given file system (so no missing-file condition can arise in a run). -/
def all_unit_files_present (metadata : Metadata) (files : List (String × String)) : Bool :=
  metadata.all (fun sp => sp.2.all (fun up => (dictGet files (unit_path sp.1 up.1)).isSome))

/-- A bibliography entry as used by generate_bibfiles.py: `pybtex`'s
`Entry` restricted to what the script touches — the entry type, the fields
mapping, and the persons mapping (whose values the script never inspects,
modelled as name lists per role). -/
structure BibEntry where
  type : String
  fields : List (String × String)
  persons : List (String × List String)
deriving DecidableEq

/-- `process_keywords` of generate_bibfiles.py (lines 29-61): return the
entry unchanged when it has no `keywords` field; otherwise split the
keywords on commas, strip each, remap it through `keyword_mappings`, keep
only those with a valid prefix, and rebuild the entry with the surviving
keywords joined by a comma and space, or with the `keywords` field removed
when none survive. -/
def process_keywords (entry : BibEntry) (keyword_mappings : List (String × String))
    (valid_prefixes : Option (List String)) : BibEntry :=
  if (dictGet entry.fields "keywords").isNone then entry
  else
    let vp := valid_prefixes.getD ["pub:", "topic:", "meta:"]
    let keywords := (splitOnChar ',' ((dictGet entry.fields "keywords").getD "").data).map
      (fun kw => (⟨stripC kw⟩ : String))
    let remapped := keywords.filterMap (fun kw =>
      let mapped := (dictGet keyword_mappings kw).getD kw
      if vp.any (fun p => p.data.isPrefixOf mapped.data) then some mapped else none)
    let fields2 :=
      if !remapped.isEmpty then
        dictInsert entry.fields "keywords" (String.intercalate ", " remapped)
      else dictPop entry.fields "keywords"
  { type := entry.type, fields := fields2, persons := entry.persons }

/-- The tags of one entry in `extract_tagged_entries` (lines 71-75): the
stripped comma-separated keywords that start with the given tag string. -/
def entryTags (keywords : String) (pfx : String) : List String :=
  (((splitOnChar ',' keywords.data).map stripC).filter
    (fun kw => pfx.data.isPrefixOf kw)).map (fun kw => (⟨kw⟩ : String))

/-- The inner loop of `extract_tagged_entries` (lines 77-80): place the
entry under each subset named by a tag whose suffix after the tag string,
stripped, is non-empty (`subsets` is a `defaultdict(dict)`). -/
def addToSubsets (subsets : List (String × List (String × BibEntry)))
    (pfx : String) (key : String) (entry : BibEntry) (tags : List String) :
    List (String × List (String × BibEntry)) :=
  tags.foldl (fun subs tag =>
    let subset_name : String := ⟨stripC (tag.data.drop pfx.data.length)⟩
    if subset_name.data.isEmpty then subs
    else dictInsert subs subset_name
      (dictInsert ((dictGet subs subset_name).getD []) key entry)) subsets

/-- One iteration of the entry loop of `extract_tagged_entries`
(lines 69-82): add the entry to the subsets named by its prefixed keyword
tags, and record it in `all_entries`. -/
def extractStep (pfx : String)
    (acc : List (String × List (String × BibEntry)) × List (String × BibEntry))
    (kv : String × BibEntry) :
    List (String × List (String × BibEntry)) × List (String × BibEntry) :=
  let keywords := (dictGet kv.2.fields "keywords").getD ""
  let tags := entryTags keywords pfx
  (addToSubsets acc.1 pfx kv.1 kv.2 tags, dictInsert acc.2 kv.1 kv.2)

/-- `extract_tagged_entries` of generate_bibfiles.py (lines 64-84): fold
over the entries in order, adding each to the subsets named by its
prefixed keyword tags and to `all_entries`. -/
def extract_tagged_entries (entries : List (String × BibEntry)) (pfx : String) :
    List (String × List (String × BibEntry)) × List (String × BibEntry) :=
  entries.foldl (extractStep pfx) ([], [])

/-- Spec-side contribution of one selected unit to the assembled section,
following the claim text: the whitespace-stripped content of the unit's
file, or nothing when the file does not exist or the stripped content is
empty. -/
def spec_contribution (files : List (String × String)) (section_name unit_name : String) :
    Option String :=
  match dictGet files (unit_path section_name unit_name) with
  | none => none
  | some content =>
    if (pyStrip content).data.isEmpty then none else some (pyStrip content)

/-- Spec-side value typing, following the claim text: a list of the
comma-separated, trimmed, non-empty tokens when the value starts with an
opening bracket and ends with a closing one; an int when the value consists
only of digits; otherwise the string value, with one surrounding pair of
double quotes removed if present.  To be compared with `parseValue`, which
is read off the source. -/
def specPropertyValue (w : String) : Value :=
  if w.data.head? = some '[' ∧ w.data.getLast? = some ']' then
    Value.list (((splitOnChar ',' ((w.data.drop 1).dropLast)).map stripC).filterMap
      (fun t => if t = [] then none else some ((⟨t⟩ : String))))
  else if w.data ≠ [] ∧ ∀ c ∈ w.data, c.isDigit then
    Value.int (digitsToNat w.data)
  else if w.data.head? = some '"' ∧ w.data.getLast? = some '"' then
    Value.str ⟨(w.data.drop 1).dropLast⟩
  else
    Value.str w

/-- Spec-side surviving keywords of `process_keywords`, following the claim
text: the remapped comma-separated trimmed keywords that start with one of
the valid prefix strings, in order. -/
def specSurvivingKeywords (kws : String) (keyword_mappings : List (String × String))
    (vp : List String) : List String :=
  ((splitOnChar ',' kws.data).map (fun kw => ((⟨stripC kw⟩ : String)))).filterMap
    (fun kw =>
      let mapped := (dictGet keyword_mappings kw).getD kw
      if vp.any (fun p => p.data.isPrefixOf mapped.data) then some mapped else none)

/-- Abstraction of the parser state used to characterise when
`load_metadata` raises: the truthiness of `current_section` and
`current_unit`, and whether the current unit is known to be a key of the
current section's mapping (`safe`, set by a unit line and cleared by a
section line). -/
structure TrackState where
  csT : Bool
  cuT : Bool
  safe : Bool
deriving DecidableEq

/-- One step of the abstraction: classifies the line exactly as
`processLine` does, tracks only name truthiness and the `safe` flag, and
fails exactly on a property line processed with truthy section and unit
while no unit line has occurred since the last section line. -/
def trackLine (t : TrackState) (raw : String) : Option TrackState :=
  let line := pyRstrip raw
  if isBlankOrComment line then some t
  else if isSectionLine line then
    some ⟨!(line.data.dropLast).isEmpty, t.cuT, false⟩
  else if isUnitLine line then
    some ⟨t.csT, !((stripC line.data).dropLast).isEmpty, t.csT || t.safe⟩
  else if isPropLine line then
    if t.csT && t.cuT && !t.safe then none else some t
  else some t

/-- Run the abstraction over a list of lines. -/
def trackFrom (t : TrackState) : List String → Option TrackState
  | [] => some t
  | l :: ls =>
    match trackLine t l with
    | some t' => trackFrom t' ls
    | none => none

/-- The inputs on which `load_metadata` completes without raising: every
property line reached with truthy section and unit is preceded by a unit
line more recently than the last section line. -/
def goodLines (lines : List String) : Bool :=
  (trackFrom ⟨false, false, false⟩ lines).isSome

/-- Simulation invariant between the parser state and its abstraction: the
tracker records the truthiness of the current section and unit names; a
truthy current section is always a key of the metadata mapping; when
`safe` is clear the current section's mapping is the fresh empty one, and
when `safe` is set a truthy current unit is one of its keys. -/
def TrackInv (st : PState) (t : TrackState) : Prop :=
  t.csT = truthy st.currentSection ∧
  t.cuT = truthy st.currentUnit ∧
  (truthy st.currentSection = true →
    ∃ units, dictGet st.metadata (st.currentSection.getD "") = some units ∧
      (t.safe = false → units = []) ∧
      (t.safe = true → truthy st.currentUnit = true →
        (dictGet units (st.currentUnit.getD "")).isSome = true))

/-! Helper lemmas about the dictionary model. -/

theorem dictGet_insert_self {α : Type} (d : List (String × α)) (k : String) (v : α) :
    dictGet (dictInsert d k v) k = some v := by
  induction d with
  | nil => simp [dictGet, dictInsert]
  | cons h t ih =>
    obtain ⟨k', v'⟩ := h
    by_cases hk : k' = k
    · simp [dictInsert, hk, dictGet]
    · simp [dictInsert, hk, dictGet, ih]

theorem dictGet_insert_ne {α : Type} (d : List (String × α)) (k k' : String) (v : α)
    (h : k ≠ k') : dictGet (dictInsert d k v) k' = dictGet d k' := by
  induction d with
  | nil => simp [dictGet, dictInsert, h]
  | cons hd t ih =>
    obtain ⟨k₀, v₀⟩ := hd
    by_cases hk : k₀ = k
    · subst hk
      simp [dictInsert, dictGet, h]
    · simp [dictInsert, hk, dictGet, ih]

theorem dictGet_pop_ne {α : Type} (d : List (String × α)) (k k' : String)
    (h : k ≠ k') : dictGet (dictPop d k) k' = dictGet d k' := by
  induction d with
  | nil => simp [dictPop]
  | cons hd t ih =>
    obtain ⟨k₀, v₀⟩ := hd
    by_cases hk : k₀ = k
    · subst hk
      simp [dictPop, dictGet, h]
    · simp [dictPop, hk, dictGet, ih]

theorem dictGet_eq_none_of_not_mem {α : Type} (d : List (String × α)) (k : String)
    (h : k ∉ d.map Prod.fst) : dictGet d k = none := by
  induction d with
  | nil => simp [dictGet]
  | cons hd t ih =>
    obtain ⟨k₀, v₀⟩ := hd
    simp only [List.map_cons, List.mem_cons] at h
    push_neg at h
    have hk : ¬ k₀ = k := fun hc => h.1 hc.symm
    simp [dictGet, hk, ih h.2]

theorem dictGet_pop_self {α : Type} (d : List (String × α)) (k : String)
    (h : (d.map Prod.fst).Nodup) : dictGet (dictPop d k) k = none := by
  induction d with
  | nil => simp [dictPop, dictGet]
  | cons hd t ih =>
    obtain ⟨k₀, v₀⟩ := hd
    simp only [List.map_cons, List.nodup_cons] at h
    by_cases hk : k₀ = k
    · subst hk
      simp only [dictPop, if_pos rfl]
      exact dictGet_eq_none_of_not_mem t k₀ h.1
    · simp [dictPop, hk, dictGet, ih h.2]

/-! Claim C8: the item limit is skipped when `max_items` is 0. -/

/-- C8: the `max_items` cap in `build_section` is applied only when
`max_items` is truthy, so `max_items = 0` imposes no limit at all: the
built section equals the one built with no limit (every unit passing the
tag filter is kept), and `limit_units` is the identity there. -/
theorem build_section_max_items_zero (metadata : Metadata) (files : List (String × String))
    (section_name : String) (tags exclude_tags : Option (List String)) :
    build_section metadata files section_name tags (some 0) exclude_tags =
      build_section metadata files section_name tags none exclude_tags ∧
    ∀ units : UnitMap, limit_units units (some 0) = units := by
  constructor
  · simp [build_section, limit_units, intTruthy]
  · intro units
    simp [limit_units, intTruthy]

/-! Claim C3: the assembled output is the join of the selected units'
stripped file contents. -/

theorem render_units_eq_filterMap (files : List (String × String)) (section_name : String)
    (units : UnitMap) :
    render_units files section_name units =
      units.filterMap (fun p => spec_contribution files section_name p.1) := by
  unfold render_units spec_contribution
  congr 1
  funext p
  cases hf : dictGet files (unit_path section_name p.1) with
  | none => simp
  | some content => by_cases hc : (pyStrip content).data.isEmpty <;> simp [hc]

/-- C3: `build_section` returns the whitespace-stripped contents of the
selected units' files (path `units/<section>/<unit>.tex`), in the selected
order, joined by exactly one blank line; a selected unit whose file is
missing or whose stripped content is empty contributes nothing, and when
no unit contributes anything the result is the empty string. -/
theorem build_section_concatenation (metadata : Metadata) (files : List (String × String))
    (section_name : String) (tags : Option (List String)) (max_items : Option Int)
    (exclude_tags : Option (List String)) :
    build_section metadata files section_name tags max_items exclude_tags =
      String.intercalate "\n\n"
        ((limit_units (sort_units (filter_units ((dictGet metadata section_name).getD [])
            tags exclude_tags)) max_items).filterMap
          (fun p => spec_contribution files section_name p.1)) ∧
    ((limit_units (sort_units (filter_units ((dictGet metadata section_name).getD [])
            tags exclude_tags)) max_items).filterMap
          (fun p => spec_contribution files section_name p.1) = [] →
      build_section metadata files section_name tags max_items exclude_tags = "") := by
  have hmain : build_section metadata files section_name tags max_items exclude_tags =
      String.intercalate "\n\n"
        ((limit_units (sort_units (filter_units ((dictGet metadata section_name).getD [])
            tags exclude_tags)) max_items).filterMap
          (fun p => spec_contribution files section_name p.1)) := by
    by_cases hsd : ((dictGet metadata section_name).getD []).isEmpty
    · have he : (dictGet metadata section_name).getD [] = ([] : UnitMap) :=
        List.isEmpty_iff.mp hsd
      rw [build_section]
      simp only [hsd, if_true, he, filter_units, List.filter_nil, sort_units,
        limit_units, pySliceTo, List.take_nil, List.length_nil, ite_self,
        List.filterMap_nil]
      rfl
    · rw [build_section]
      simp only [hsd, Bool.false_eq_true, if_false]
      rw [render_units_eq_filterMap]
  refine ⟨hmain, fun hnil => ?_⟩
  rw [hmain, hnil]
  rfl

/-- Witness for C3 at a concrete input where no unit contributes content
(the unit file is absent), checking the empty-output case. -/
theorem build_section_concatenation_witness :
    build_section [("s", [("u", [])])] [] "s" none none none = "" :=
  (build_section_concatenation [("s", [("u", [])])] [] "s" none none none).2 (by decide)

/-! Claim C1: tag-based selection. -/

/-- C1: a unit of the section's metadata is selected by the tag filter of
`build_section` exactly when the `tags` filter is `None` or the unit's
tags list contains one of the requested tags, and no given `exclude_tags`
list has a tag contained in the unit's tags list; a unit with no `tags`
property behaves as having the empty tag list and is selected only when
the `tags` filter is `None`.  The `tagsOk` hypothesis restricts to
metadata whose `tags` property is a list, the claim's reading. -/
theorem build_section_tag_selection (section_data : UnitMap)
    (tags exclude_tags : Option (List String)) (u : String) (props : Props)
    (hmem : (u, props) ∈ section_data) (hok : tagsOk props = true) :
    ((u, props) ∈ filter_units section_data tags exclude_tags ↔
      ((tags = none ∨ ∃ t ∈ tags.getD [], t ∈ get_tags props) ∧
        ¬ ∃ ex, exclude_tags = some ex ∧ ∃ t ∈ ex, t ∈ get_tags props)) ∧
    (dictGet props "tags" = none →
      ((u, props) ∈ filter_units section_data tags exclude_tags ↔ tags = none)) := by
  have hmf : ((u, props) ∈ filter_units section_data tags exclude_tags ↔
      unitIncluded tags exclude_tags props = true) := by
    unfold filter_units
    rw [List.mem_filter]
    simp [hmem]
  have hiff : (unitIncluded tags exclude_tags props = true ↔
      ((tags = none ∨ ∃ t ∈ tags.getD [], t ∈ get_tags props) ∧
        ¬ ∃ ex, exclude_tags = some ex ∧ ∃ t ∈ ex, t ∈ get_tags props)) := by
    unfold unitIncluded
    cases tags <;> cases exclude_tags <;>
      simp [listTruthy, List.any_eq_true, List.contains, List.elem_iff, and_comm]
    · rintro rfl
      simp
    · intro x hx h1
      rintro rfl
      simp
  constructor
  · exact hmf.trans hiff
  · intro hnone
    have hempty : get_tags props = [] := by
      unfold get_tags
      rw [hnone]
    rw [hmf, hiff, hempty]
    simp

/-- Witness for C1 at a concrete selected unit. -/
theorem build_section_tag_selection_witness :
    ((("a", [("tags", Value.list ["x", "y"])]) ∈
        ([("a", [("tags", Value.list ["x", "y"])])] : UnitMap)) ∧
      tagsOk [("tags", Value.list ["x", "y"])] = true) ∧
    (((("a", [("tags", Value.list ["x", "y"])]) ∈
        filter_units [("a", [("tags", Value.list ["x", "y"])])] (some ["y"]) (some ["z"])) ↔
      ((some ["y"] = none ∨
          ∃ t ∈ (some ["y"]).getD [], t ∈ get_tags [("tags", Value.list ["x", "y"])]) ∧
        ¬ ∃ ex, (some ["z"] : Option (List String)) = some ex ∧
          ∃ t ∈ ex, t ∈ get_tags [("tags", Value.list ["x", "y"])])) ∧
      (dictGet [("tags", Value.list ["x", "y"])] "tags" = none →
        ((("a", [("tags", Value.list ["x", "y"])]) ∈
            filter_units [("a", [("tags", Value.list ["x", "y"])])] (some ["y"]) (some ["z"])) ↔
          (some ["y"] : Option (List String)) = none))) :=
  ⟨⟨by decide, by decide⟩,
    build_section_tag_selection [("a", [("tags", Value.list ["x", "y"])])]
      (some ["y"]) (some ["z"]) "a" [("tags", Value.list ["x", "y"])] (by decide) (by decide)⟩

/-! Claim C2: ordering by priority, stability, and the item limit. -/

theorem insertByPriority_perm (x : String × Props) (l : UnitMap) :
    List.Perm (insertByPriority x l) (x :: l) := by
  induction l with
  | nil => exact List.Perm.refl _
  | cons y ys ih =>
    by_cases h : get_priority x.2 ≤ get_priority y.2
    · simp [insertByPriority, h]
    · simp only [insertByPriority, h, if_false]
      exact (ih.cons y).trans (List.Perm.swap x y ys)

theorem sort_units_perm (l : UnitMap) : List.Perm (sort_units l) l := by
  induction l with
  | nil => exact List.Perm.refl _
  | cons x xs ih =>
    exact (insertByPriority_perm x (sort_units xs)).trans (ih.cons x)

theorem insertByPriority_pairwise (x : String × Props) (l : UnitMap)
    (h : l.Pairwise (fun a b => get_priority a.2 ≤ get_priority b.2)) :
    (insertByPriority x l).Pairwise (fun a b => get_priority a.2 ≤ get_priority b.2) := by
  induction l with
  | nil => simp [insertByPriority]
  | cons y ys ih =>
    rcases List.pairwise_cons.mp h with ⟨hy, hys⟩
    by_cases hle : get_priority x.2 ≤ get_priority y.2
    · simp only [insertByPriority, hle, if_true]
      refine List.pairwise_cons.mpr ⟨?_, h⟩
      intro z hz
      rcases List.mem_cons.mp hz with rfl | hz'
      · exact hle
      · exact le_trans hle (hy z hz')
    · simp only [insertByPriority, hle, if_false]
      refine List.pairwise_cons.mpr ⟨?_, ih hys⟩
      intro z hz
      rcases List.mem_cons.mp ((insertByPriority_perm x ys).mem_iff.mp hz) with rfl | hz'
      · omega
      · exact hy z hz'

theorem sort_units_pairwise (l : UnitMap) :
    (sort_units l).Pairwise (fun a b => get_priority a.2 ≤ get_priority b.2) := by
  induction l with
  | nil => simp [sort_units]
  | cons x xs ih => exact insertByPriority_pairwise x (sort_units xs) ih

theorem insertByPriority_filter (x : String × Props) (l : UnitMap) (p : Nat) :
    (insertByPriority x l).filter (fun y => get_priority y.2 == p) =
      if get_priority x.2 == p then x :: l.filter (fun y => get_priority y.2 == p)
      else l.filter (fun y => get_priority y.2 == p) := by
  induction l with
  | nil =>
    by_cases hx : (get_priority x.2 == p) = true <;> simp [insertByPriority, hx]
  | cons y ys ih =>
    by_cases hle : get_priority x.2 ≤ get_priority y.2
    · simp only [insertByPriority, hle, if_true]
      by_cases hx : (get_priority x.2 == p) = true <;> simp [List.filter_cons, hx]
    · have hlt : get_priority y.2 < get_priority x.2 := by omega
      simp only [insertByPriority, hle, if_false]
      by_cases hx : (get_priority x.2 == p) = true
      · have hxp : get_priority x.2 = p := by simpa using hx
        have hy : (get_priority y.2 == p) = false := by
          simp only [beq_eq_false_iff_ne, ne_eq]
          omega
        simp [List.filter_cons, hy, ih, hx]
      · by_cases hy : (get_priority y.2 == p) = true <;>
          simp [List.filter_cons, hy, ih, hx]

theorem sort_units_filter (l : UnitMap) (p : Nat) :
    (sort_units l).filter (fun y => get_priority y.2 == p) =
      l.filter (fun y => get_priority y.2 == p) := by
  induction l with
  | nil => rfl
  | cons x xs ih =>
    rw [sort_units, insertByPriority_filter]
    by_cases hx : (get_priority x.2 == p) = true <;> simp [List.filter_cons, hx, ih]

/-- C2: the selected units are emitted in ascending order of their
`priority` (999 when absent): the sorted list is pairwise ordered by the
priority key, is a permutation of the filtered list, and for every
priority the equal-priority units keep their relative metadata order (the
sort is stable); a positive `max_items` keeps exactly the first
`max_items` units of that order.  The `priorityOk` hypothesis restricts to
metadata whose `priority` property is an int, the claim's reading. -/
theorem build_section_ordering (section_data : UnitMap)
    (tags exclude_tags : Option (List String)) (m : Int)
    (hok : (filter_units section_data tags exclude_tags).all
      (fun p => priorityOk p.2) = true)
    (hm : 0 < m) :
    (sort_units (filter_units section_data tags exclude_tags)).Pairwise
        (fun a b => get_priority a.2 ≤ get_priority b.2) ∧
    List.Perm (sort_units (filter_units section_data tags exclude_tags))
      (filter_units section_data tags exclude_tags) ∧
    (∀ p : Nat,
      (sort_units (filter_units section_data tags exclude_tags)).filter
          (fun y => get_priority y.2 == p) =
        (filter_units section_data tags exclude_tags).filter
          (fun y => get_priority y.2 == p)) ∧
    limit_units (sort_units (filter_units section_data tags exclude_tags)) (some m) =
      (sort_units (filter_units section_data tags exclude_tags)).take m.toNat := by
  refine ⟨sort_units_pairwise _, sort_units_perm _, fun p => sort_units_filter _ p, ?_⟩
  have ht : intTruthy (some m) = true := by
    simp only [intTruthy, bne_iff_ne, ne_eq, decide_eq_true_eq]
    omega
  simp [limit_units, ht, pySliceTo, le_of_lt hm]

/-- Witness for C2 at a concrete two-unit section with `max_items = 1`. -/
theorem build_section_ordering_witness :
    (((filter_units [("a", [("priority", Value.int 2)]), ("b", [])] none none).all
        (fun p => priorityOk p.2) = true) ∧ (0 : Int) < 1) ∧
    ((sort_units (filter_units [("a", [("priority", Value.int 2)]), ("b", [])] none none)).Pairwise
        (fun a b => get_priority a.2 ≤ get_priority b.2) ∧
      List.Perm (sort_units (filter_units [("a", [("priority", Value.int 2)]), ("b", [])] none none))
        (filter_units [("a", [("priority", Value.int 2)]), ("b", [])] none none) ∧
      (∀ p : Nat,
        (sort_units (filter_units [("a", [("priority", Value.int 2)]), ("b", [])] none none)).filter
            (fun y => get_priority y.2 == p) =
          (filter_units [("a", [("priority", Value.int 2)]), ("b", [])] none none).filter
            (fun y => get_priority y.2 == p)) ∧
      limit_units (sort_units (filter_units [("a", [("priority", Value.int 2)]), ("b", [])] none none))
          (some 1) =
        (sort_units (filter_units [("a", [("priority", Value.int 2)]), ("b", [])] none none)).take
          (1 : Int).toNat) :=
  ⟨⟨by decide, by decide⟩,
    build_section_ordering [("a", [("priority", Value.int 2)]), ("b", [])] none none 1
      (by decide) (by decide)⟩

/-! Claim C4: typing of stored property values. -/

theorem singleton_isPrefixOf_iff (c : Char) (l : List Char) :
    ([c].isPrefixOf l = true) ↔ l.head? = some c := by
  cases l with
  | nil => simp [List.isPrefixOf]
  | cons x xs =>
    simp only [List.isPrefixOf, Bool.and_true, beq_iff_eq, List.head?_cons,
      Option.some.injEq]
    exact eq_comm

theorem lastIs_iff (l : List Char) (c : Char) :
    (lastIs l c = true) ↔ l.getLast? = some c := by
  unfold lastIs
  cases h : l.getLast? with
  | none => simp
  | some x => simp

theorem isDigits_iff (l : List Char) :
    (isDigits l = true) ↔ (l ≠ [] ∧ ∀ c ∈ l, c.isDigit) := by
  unfold isDigits
  simp [List.isEmpty_iff, List.all_eq_true]

theorem filter_nonEmpty_map_eq_filterMap (L : List (List Char)) :
    ((L.filter (fun t => !t.isEmpty)).map (fun t => ((⟨t⟩ : String)))) =
      L.filterMap (fun t => if t = [] then none else some ((⟨t⟩ : String))) := by
  induction L with
  | nil => rfl
  | cons h t ih =>
    by_cases hh : h = []
    · subst hh
      simp [List.filter_cons, List.filterMap_cons, ih]
    · simp [List.filter_cons, List.filterMap_cons, hh, List.isEmpty_iff, ih]

theorem parseValue_eq_specPropertyValue (w : String) :
    parseValue w = specPropertyValue w := by
  have hbra : ((['['].isPrefixOf w.data && lastIs w.data ']') = true) ↔
      (w.data.head? = some '[' ∧ w.data.getLast? = some ']') := by
    rw [Bool.and_eq_true, singleton_isPrefixOf_iff, lastIs_iff]
  have hquo : ((['"'].isPrefixOf w.data && lastIs w.data '"') = true) ↔
      (w.data.head? = some '"' ∧ w.data.getLast? = some '"') := by
    rw [Bool.and_eq_true, singleton_isPrefixOf_iff, lastIs_iff]
  have hdig : ((isDigits w.data = true)) ↔ (w.data ≠ [] ∧ ∀ c ∈ w.data, c.isDigit) :=
    isDigits_iff w.data
  simp only [parseValue, specPropertyValue, stripQuotes, parseListItems]
  by_cases h1 : (['['].isPrefixOf w.data && lastIs w.data ']') = true
  · rw [if_pos h1, if_pos (hbra.mp h1), filter_nonEmpty_map_eq_filterMap]
  · rw [if_neg h1, if_neg (fun hc => h1 (hbra.mpr hc))]
    by_cases h2 : isDigits w.data = true
    · rw [if_pos h2, if_pos (hdig.mp h2)]
    · rw [if_neg h2, if_neg (fun hc => h2 (hdig.mpr hc))]
      by_cases h3 : (['"'].isPrefixOf w.data && lastIs w.data '"') = true
      · rw [if_pos h3, if_pos (hquo.mp h3)]
      · rw [if_neg h3, if_neg (fun hc => h3 (hquo.mpr hc))]

theorem prefix4_prefix1 (l : List Char)
    (h : [' ', ' ', ' ', ' '].isPrefixOf l = true) : [' '].isPrefixOf l = true := by
  cases l with
  | nil => simp [List.isPrefixOf] at h
  | cons x xs =>
    simp only [List.isPrefixOf, Bool.and_eq_true] at h ⊢
    exact ⟨h.1, trivial⟩

/-- C4: a property line (four-space indent, containing a colon, not blank
or comment) processed under a truthy current section and unit stores, at
the key before the first colon of the stripped line, the value typed by
the cascade `specPropertyValue` of the claim: a list of the
comma-separated trimmed non-empty tokens for a bracketed value, an int for
a digit-only value, otherwise the string with one pair of surrounding
double quotes removed — so every stored value is a string, an int, or a
list of strings; moreover the source's `parseValue` agrees with that
cascade on every value. -/
theorem property_line_typed_storage (st : PState) (raw : String) (sec u : String)
    (units : UnitMap) (props : Props)
    (hprop : isPropLine (pyRstrip raw) = true)
    (hnc : isBlankOrComment (pyRstrip raw) = false)
    (hsec : st.currentSection = some sec) (hu : st.currentUnit = some u)
    (hst : sec.data ≠ []) (hut : u.data ≠ [])
    (hgs : dictGet st.metadata sec = some units)
    (hgu : dictGet units u = some props) :
    (processLine st raw = some (PState.mk
      (dictInsert st.metadata sec (dictInsert units u (dictInsert props
        (⟨(splitFirstAt ':' (stripC (pyRstrip raw).data)).1⟩ : String)
        (specPropertyValue ⟨stripC (splitFirstAt ':' (stripC (pyRstrip raw).data)).2⟩))))
      st.currentSection st.currentUnit)) ∧
    ∀ w : String, parseValue w = specPropertyValue w := by
  refine ⟨?_, parseValue_eq_specPropertyValue⟩
  have hprop' := hprop
  rw [isPropLine, Bool.and_eq_true] at hprop'
  have hsl : isSectionLine (pyRstrip raw) = false := by
    have h1 := prefix4_prefix1 _ hprop'.1
    simp [isSectionLine, h1]
  have hul : isUnitLine (pyRstrip raw) = false := by
    simp [isUnitLine, hprop'.1]
  have htr : truthy st.currentSection = true := by
    rw [hsec]
    simp [truthy, List.isEmpty_iff, hst]
  have htu : truthy st.currentUnit = true := by
    rw [hu]
    simp [truthy, List.isEmpty_iff, hut]
  simp only [processLine, hnc, hsl, hul, hprop, htr, htu, hsec, hu, Bool.false_eq_true,
    if_false, Bool.and_self, if_true, Option.getD_some, hgs, hgu,
    parseValue_eq_specPropertyValue]
  simp [truthy, List.isEmpty_iff, hst, hut]

/-- Witness for C4 at a concrete property line storing a list value. -/
theorem property_line_typed_storage_witness :
    (isPropLine (pyRstrip "    tags: [a]") = true ∧
      isBlankOrComment (pyRstrip "    tags: [a]") = false ∧
      (PState.mk [("s", [("u", [])])] (some "s") (some "u")).currentSection = some "s" ∧
      (PState.mk [("s", [("u", [])])] (some "s") (some "u")).currentUnit = some "u" ∧
      ("s" : String).data ≠ [] ∧ ("u" : String).data ≠ [] ∧
      dictGet (PState.mk [("s", [("u", [])])] (some "s") (some "u")).metadata "s" =
        some [("u", [])] ∧
      dictGet [("u", ([] : Props))] "u" = some []) ∧
    ((processLine (PState.mk [("s", [("u", [])])] (some "s") (some "u")) "    tags: [a]" =
      some (PState.mk
        (dictInsert (PState.mk [("s", [("u", [])])] (some "s") (some "u")).metadata "s"
          (dictInsert [("u", [])] "u" (dictInsert []
            (⟨(splitFirstAt ':' (stripC (pyRstrip "    tags: [a]").data)).1⟩ : String)
            (specPropertyValue
              ⟨stripC (splitFirstAt ':' (stripC (pyRstrip "    tags: [a]").data)).2⟩))))
        (PState.mk [("s", [("u", [])])] (some "s") (some "u")).currentSection
        (PState.mk [("s", [("u", [])])] (some "s") (some "u")).currentUnit)) ∧
      ∀ w : String, parseValue w = specPropertyValue w) :=
  ⟨⟨by decide, by decide, rfl, rfl, by decide, by decide, by decide, by decide⟩,
    property_line_typed_storage (PState.mk [("s", [("u", [])])] (some "s") (some "u"))
      "    tags: [a]" "s" "u" [("u", [])] [] (by decide) (by decide) rfl rfl
      (by decide) (by decide) (by decide) (by decide)⟩

/-! Claim C9: duplicate section names are not merged. -/

theorem rstripC_append_colon (l : List Char) : rstripC (l ++ [':']) = l ++ [':'] := by
  unfold rstripC dropTrailing
  have hc : (':' : Char).isWhitespace = false := by decide
  rw [List.reverse_append]
  simp [List.dropWhile, hc]

/-- C9: a top-level section line (in particular the second occurrence of a
duplicated section name) rebinds that name to a fresh empty mapping, so
every unit previously parsed under the name is discarded and the returned
mapping holds only the units that follow the last occurrence — illustrated
on a concrete metadata file with a duplicated section. -/
theorem duplicate_section_rebinds (st : PState) (s : String)
    (hbc : isBlankOrComment (pyRstrip (s ++ ":")) = false)
    (hsl : isSectionLine (pyRstrip (s ++ ":")) = true) :
    processLine st (s ++ ":") =
      some (PState.mk (dictInsert st.metadata s []) (some s) st.currentUnit) ∧
    dictGet (dictInsert st.metadata s []) s = some ([] : UnitMap) ∧
    load_metadata ["a:", "  u1:", "    priority: 1", "a:", "  u2:"] =
      some [("a", [("u2", [])])] := by
  obtain ⟨sd⟩ := s
  have hr : pyRstrip ((⟨sd⟩ : String) ++ ":") = ⟨sd ++ [':']⟩ := by
    show (⟨rstripC ((⟨sd⟩ : String) ++ ":").data⟩ : String) = _
    rw [String.data_append, rstripC_append_colon]
  rw [hr] at hbc hsl
  refine ⟨?_, dictGet_insert_self _ _ _, by decide⟩
  simp only [processLine, hr, hbc, hsl, Bool.false_eq_true, if_false, if_true,
    String.data_append, List.dropLast_concat]

/-- Witness for C9 at a concrete state that already holds a unit under the
section name, which the section line discards. -/
theorem duplicate_section_rebinds_witness :
    (isBlankOrComment (pyRstrip ("a" ++ ":")) = false ∧
      isSectionLine (pyRstrip ("a" ++ ":")) = true) ∧
    (processLine (PState.mk [("a", [("u1", [])])] (some "a") (some "u1")) ("a" ++ ":") =
      some (PState.mk (dictInsert [("a", [("u1", [])])] "a" []) (some "a") (some "u1")) ∧
    dictGet (dictInsert [("a", [("u1", [])])] "a" []) "a" = some ([] : UnitMap) ∧
    load_metadata ["a:", "  u1:", "    priority: 1", "a:", "  u2:"] =
      some [("a", [("u2", [])])]) :=
  ⟨⟨by decide, by decide⟩,
    duplicate_section_rebinds (PState.mk [("a", [("u1", [])])] (some "a") (some "u1")) "a"
      (by decide) (by decide)⟩

/-! Claim C5: exit behaviour of `main`. -/

theorem str_data_isEmpty_iff (s : String) : (s.data.isEmpty = true) ↔ s = "" := by
  obtain ⟨d⟩ := s
  rw [List.isEmpty_iff]
  constructor
  · intro h
    have hd : d = [] := h
    subst hd
    rfl
  · intro h
    exact congrArg String.data h

/-- C5 counterexample: `main` exits with status 1 although the metadata
file exists, the metadata parses, and every unit file listed in the
metadata is present — no missing-file condition holds; the exit is caused
by the tag filter selecting no unit, so the content is empty. -/
theorem run_main_exit_counterexample :
    run_main true ["s:", "  u:", "    tags: [a]"] [("units/s/u.tex", "X")] "s"
        (some ["b"]) none none = ExitOutcome.exited 1 ∧
    (load_metadata ["s:", "  u:", "    tags: [a]"]).isSome = true ∧
    all_unit_files_present ((load_metadata ["s:", "  u:", "    tags: [a]"]).getD [])
        [("units/s/u.tex", "X")] = true := by
  decide

/-- C5 (amended): `main` exits with status 1 exactly when the metadata
file does not exist or the built content is empty — the latter also
happens with every file present (for example when no unit passes the tag
filter), so exiting is not confined to missing-file conditions; a
malformed metadata file instead raises an uncaught `KeyError`. -/
theorem run_main_exit_one_iff (mdExists : Bool) (lines : List String)
    (files : List (String × String)) (section_name : String)
    (tags : Option (List String)) (max_items : Option Int)
    (exclude_tags : Option (List String)) :
    run_main mdExists lines files section_name tags max_items exclude_tags =
        ExitOutcome.exited 1 ↔
      (mdExists = false ∨ ∃ md, load_metadata lines = some md ∧
        build_section md files section_name tags max_items exclude_tags = "") := by
  unfold run_main
  cases mdExists with
  | false => simp
  | true =>
    simp only [Bool.not_true, Bool.false_eq_true, if_false]
    cases hl : load_metadata lines with
    | none => simp
    | some md =>
      by_cases hc :
          (build_section md files section_name tags max_items exclude_tags).data.isEmpty
      · simp [hc, (str_data_isEmpty_iff _).mp hc]
      · have hne : build_section md files section_name tags max_items exclude_tags ≠ "" :=
          fun h => hc ((str_data_isEmpty_iff _).mpr h)
        simp [hc, hne]

/-! Claim C10: frame property of `process_keywords`. -/

/-- C10: `process_keywords` preserves the entry type, the persons, and
every field other than `keywords`; an entry without a `keywords` field is
returned unchanged; and the resulting `keywords` field holds exactly the
surviving remapped valid-prefixed keywords joined by a comma and space, or
is absent when none survive.  The `Nodup` hypothesis is the uniqueness of
Python `dict` keys. -/
theorem process_keywords_frame (entry : BibEntry)
    (keyword_mappings : List (String × String)) (valid_prefixes : Option (List String))
    (hnodup : (entry.fields.map Prod.fst).Nodup) :
    (process_keywords entry keyword_mappings valid_prefixes).type = entry.type ∧
    (process_keywords entry keyword_mappings valid_prefixes).persons = entry.persons ∧
    (∀ k, k ≠ "keywords" →
      dictGet (process_keywords entry keyword_mappings valid_prefixes).fields k =
        dictGet entry.fields k) ∧
    (dictGet entry.fields "keywords" = none →
      process_keywords entry keyword_mappings valid_prefixes = entry) ∧
    (∀ kws, dictGet entry.fields "keywords" = some kws →
      dictGet (process_keywords entry keyword_mappings valid_prefixes).fields "keywords" =
        (if specSurvivingKeywords kws keyword_mappings
            (valid_prefixes.getD ["pub:", "topic:", "meta:"]) = [] then none
         else some (String.intercalate ", " (specSurvivingKeywords kws keyword_mappings
            (valid_prefixes.getD ["pub:", "topic:", "meta:"]))))) := by
  cases hk : dictGet entry.fields "keywords" with
  | none =>
    have hpe : process_keywords entry keyword_mappings valid_prefixes = entry := by
      unfold process_keywords
      simp [hk]
    refine ⟨by rw [hpe], by rw [hpe], fun k _ => by rw [hpe], fun _ => hpe, ?_⟩
    intro kws hkw
    exact absurd hkw (by simp)
  | some kws =>
    have hfields :
        (process_keywords entry keyword_mappings valid_prefixes).fields =
          (if !(specSurvivingKeywords kws keyword_mappings
                (valid_prefixes.getD ["pub:", "topic:", "meta:"])).isEmpty then
            dictInsert entry.fields "keywords"
              (String.intercalate ", " (specSurvivingKeywords kws keyword_mappings
                (valid_prefixes.getD ["pub:", "topic:", "meta:"])))
          else dictPop entry.fields "keywords") := by
      unfold process_keywords
      simp only [hk, Option.isNone_some, Bool.false_eq_true, if_false,
        Option.getD_some, specSurvivingKeywords]
    have htp : (process_keywords entry keyword_mappings valid_prefixes).type =
        entry.type := by
      unfold process_keywords
      simp [hk]
    have hpr : (process_keywords entry keyword_mappings valid_prefixes).persons =
        entry.persons := by
      unfold process_keywords
      simp [hk]
    refine ⟨htp, hpr, ?_, ?_, ?_⟩
    · intro k hkne
      rw [hfields]
      by_cases hse : (specSurvivingKeywords kws keyword_mappings
          (valid_prefixes.getD ["pub:", "topic:", "meta:"])).isEmpty
      · simp only [hse, Bool.not_true, Bool.false_eq_true, if_false]
        exact dictGet_pop_ne _ _ _ (fun h => hkne h.symm)
      · simp only [hse, Bool.not_false, if_true]
        exact dictGet_insert_ne _ _ _ _ (fun h => hkne h.symm)
    · intro hnone
      exact absurd hnone (by simp)
    · intro kws' hkw'
      obtain rfl : kws = kws' := Option.some.inj hkw'
      rw [hfields]
      by_cases he : (specSurvivingKeywords kws keyword_mappings
          (valid_prefixes.getD ["pub:", "topic:", "meta:"])).isEmpty
      · have heq : specSurvivingKeywords kws keyword_mappings
            (valid_prefixes.getD ["pub:", "topic:", "meta:"]) = [] :=
          List.isEmpty_iff.mp he
        simp only [he, Bool.not_true, Bool.false_eq_true, if_false, heq, if_true]
        exact dictGet_pop_self entry.fields "keywords" hnodup
      · have hne : specSurvivingKeywords kws keyword_mappings
            (valid_prefixes.getD ["pub:", "topic:", "meta:"]) ≠ [] :=
          fun h => he (List.isEmpty_iff.mpr h)
        simp only [he, Bool.not_false, if_true, hne, if_false]
        exact dictGet_insert_self _ _ _

/-- Witness for C10 at a concrete entry with a remapped and a dropped
keyword. -/
theorem process_keywords_frame_witness :
    ((BibEntry.mk "article" [("title", "T"), ("keywords", "ml, pub:x")]
        [("author", ["A"])]).fields.map Prod.fst).Nodup ∧
    ((process_keywords (BibEntry.mk "article" [("title", "T"), ("keywords", "ml, pub:x")]
        [("author", ["A"])]) [("ml", "topic:ml")] none).type =
      (BibEntry.mk "article" [("title", "T"), ("keywords", "ml, pub:x")]
        [("author", ["A"])]).type ∧
    (process_keywords (BibEntry.mk "article" [("title", "T"), ("keywords", "ml, pub:x")]
        [("author", ["A"])]) [("ml", "topic:ml")] none).persons =
      (BibEntry.mk "article" [("title", "T"), ("keywords", "ml, pub:x")]
        [("author", ["A"])]).persons ∧
    (∀ k, k ≠ "keywords" →
      dictGet (process_keywords (BibEntry.mk "article"
          [("title", "T"), ("keywords", "ml, pub:x")] [("author", ["A"])])
          [("ml", "topic:ml")] none).fields k =
        dictGet (BibEntry.mk "article" [("title", "T"), ("keywords", "ml, pub:x")]
          [("author", ["A"])]).fields k) ∧
    (dictGet (BibEntry.mk "article" [("title", "T"), ("keywords", "ml, pub:x")]
        [("author", ["A"])]).fields "keywords" = none →
      process_keywords (BibEntry.mk "article" [("title", "T"), ("keywords", "ml, pub:x")]
        [("author", ["A"])]) [("ml", "topic:ml")] none =
        BibEntry.mk "article" [("title", "T"), ("keywords", "ml, pub:x")]
          [("author", ["A"])]) ∧
    (∀ kws, dictGet (BibEntry.mk "article" [("title", "T"), ("keywords", "ml, pub:x")]
        [("author", ["A"])]).fields "keywords" = some kws →
      dictGet (process_keywords (BibEntry.mk "article"
          [("title", "T"), ("keywords", "ml, pub:x")] [("author", ["A"])])
          [("ml", "topic:ml")] none).fields "keywords" =
        (if specSurvivingKeywords kws [("ml", "topic:ml")]
            ((none : Option (List String)).getD ["pub:", "topic:", "meta:"]) = [] then none
         else some (String.intercalate ", " (specSurvivingKeywords kws [("ml", "topic:ml")]
            ((none : Option (List String)).getD ["pub:", "topic:", "meta:"])))))) :=
  ⟨by decide,
    process_keywords_frame (BibEntry.mk "article" [("title", "T"), ("keywords", "ml, pub:x")]
      [("author", ["A"])]) [("ml", "topic:ml")] none (by decide)⟩

/-! Claim C7: bibliography splitting. -/

theorem addToSubsets_lookup (pfx key S k : String) (entry : BibEntry)
    (tags : List String) :
    ∀ subs : List (String × List (String × BibEntry)),
    ((dictGet (addToSubsets subs pfx key entry tags) S).bind (fun m => dictGet m k)) =
      (if k = key ∧ S.data ≠ [] ∧
          ∃ tag ∈ tags, S = (⟨stripC (tag.data.drop pfx.data.length)⟩ : String)
        then some entry
        else (dictGet subs S).bind (fun m => dictGet m k)) := by
  induction tags with
  | nil =>
    intro subs
    simp [addToSubsets]
  | cons tag tags ih =>
    intro subs
    rw [show addToSubsets subs pfx key entry (tag :: tags) = addToSubsets
      (if ((⟨stripC (tag.data.drop pfx.data.length)⟩ : String)).data.isEmpty then subs
       else dictInsert subs (⟨stripC (tag.data.drop pfx.data.length)⟩ : String)
         (dictInsert
           ((dictGet subs (⟨stripC (tag.data.drop pfx.data.length)⟩ : String)).getD [])
           key entry))
      pfx key entry tags from rfl]
    rw [ih]
    by_cases htail : k = key ∧ S.data ≠ [] ∧
        ∃ t ∈ tags, S = (⟨stripC (t.data.drop pfx.data.length)⟩ : String)
    · obtain ⟨h1, h2, t, ht, hs⟩ := htail
      rw [if_pos ⟨h1, h2, t, ht, hs⟩,
        if_pos ⟨h1, h2, t, List.mem_cons_of_mem tag ht, hs⟩]
    · rw [if_neg htail]
      by_cases hemp :
          ((⟨stripC (tag.data.drop pfx.data.length)⟩ : String)).data.isEmpty = true
      · rw [if_pos hemp]
        have hall : ¬(k = key ∧ S.data ≠ [] ∧
            ∃ t ∈ tag :: tags, S = (⟨stripC (t.data.drop pfx.data.length)⟩ : String)) := by
          rintro ⟨h1, h2, t, ht, hs⟩
          rcases List.mem_cons.mp ht with rfl | ht'
          · exact h2 (by rw [hs]; exact List.isEmpty_iff.mp hemp)
          · exact htail ⟨h1, h2, t, ht', hs⟩
        rw [if_neg hall]
      · rw [if_neg hemp]
        by_cases hS : S = (⟨stripC (tag.data.drop pfx.data.length)⟩ : String)
        · rw [← hS, dictGet_insert_self, Option.some_bind]
          by_cases hk : k = key
          · subst hk
            rw [dictGet_insert_self]
            rw [if_pos ⟨rfl, fun he => hemp (by rw [← hS]; exact List.isEmpty_iff.mpr he),
              tag, List.mem_cons_self tag tags, hS⟩]
          · rw [dictGet_insert_ne _ key k _ (fun h => hk h.symm)]
            rw [if_neg (fun hc => hk hc.1)]
            cases hg : dictGet subs S with
            | none => simp [hg, dictGet]
            | some m => simp [hg]
        · rw [dictGet_insert_ne _ _ S _ (fun h => hS h.symm)]
          have hall : ¬(k = key ∧ S.data ≠ [] ∧
              ∃ t ∈ tag :: tags, S = (⟨stripC (t.data.drop pfx.data.length)⟩ : String)) := by
            rintro ⟨h1, h2, t, ht, hs⟩
            rcases List.mem_cons.mp ht with rfl | ht'
            · exact hS hs
            · exact htail ⟨h1, h2, t, ht', hs⟩
          rw [if_neg hall]

theorem extract_fold_other_key (pfx k : String) (es : List (String × BibEntry)) :
    ∀ acc, k ∉ es.map Prod.fst →
    (∀ S, ((dictGet (es.foldl (extractStep pfx) acc).1 S).bind (fun m => dictGet m k)) =
        ((dictGet acc.1 S).bind (fun m => dictGet m k))) ∧
    dictGet (es.foldl (extractStep pfx) acc).2 k = dictGet acc.2 k := by
  induction es with
  | nil =>
    intro acc _
    exact ⟨fun S => rfl, rfl⟩
  | cons kv es ih =>
    intro acc hk
    simp only [List.map_cons, List.mem_cons] at hk
    push_neg at hk
    obtain ⟨ihS, ih2⟩ := ih (extractStep pfx acc kv) hk.2
    constructor
    · intro S
      rw [show (kv :: es).foldl (extractStep pfx) acc =
        es.foldl (extractStep pfx) (extractStep pfx acc kv) from rfl]
      rw [ihS S]
      show ((dictGet (addToSubsets acc.1 pfx kv.1 kv.2
        (entryTags ((dictGet kv.2.fields "keywords").getD "") pfx)) S).bind
          (fun m => dictGet m k)) = _
      rw [addToSubsets_lookup]
      exact if_neg (fun hc => hk.1 hc.1)
    · rw [show (kv :: es).foldl (extractStep pfx) acc =
        es.foldl (extractStep pfx) (extractStep pfx acc kv) from rfl]
      rw [ih2]
      exact dictGet_insert_ne _ _ _ _ (fun h => hk.1 h.symm)

theorem extract_fold_this_key (pfx : String) (es : List (String × BibEntry)) :
    ∀ acc (key : String) (entry : BibEntry),
    (es.map Prod.fst).Nodup → (key, entry) ∈ es →
    (∀ S, ((dictGet (es.foldl (extractStep pfx) acc).1 S).bind (fun m => dictGet m key)) =
        (if S.data ≠ [] ∧
            ∃ tag ∈ entryTags ((dictGet entry.fields "keywords").getD "") pfx,
              S = (⟨stripC (tag.data.drop pfx.data.length)⟩ : String)
          then some entry
          else (dictGet acc.1 S).bind (fun m => dictGet m key))) ∧
    dictGet (es.foldl (extractStep pfx) acc).2 key = some entry := by
  induction es with
  | nil =>
    intro acc key entry _ hmem
    exact absurd hmem (List.not_mem_nil _)
  | cons kv es ih =>
    intro acc key entry hnd hmem
    simp only [List.map_cons, List.nodup_cons] at hnd
    rcases List.mem_cons.mp hmem with heq | hmem'
    · subst heq
      have hknotin : key ∉ es.map Prod.fst := hnd.1
      obtain ⟨oS, o2⟩ := extract_fold_other_key pfx key es (extractStep pfx acc (key, entry))
        hknotin
      constructor
      · intro S
        rw [show ((key, entry) :: es).foldl (extractStep pfx) acc =
          es.foldl (extractStep pfx) (extractStep pfx acc (key, entry)) from rfl]
        rw [oS S]
        show ((dictGet (addToSubsets acc.1 pfx key entry
          (entryTags ((dictGet entry.fields "keywords").getD "") pfx)) S).bind
            (fun m => dictGet m key)) = _
        rw [addToSubsets_lookup]
        by_cases hhit : S.data ≠ [] ∧
            ∃ tag ∈ entryTags ((dictGet entry.fields "keywords").getD "") pfx,
              S = (⟨stripC (tag.data.drop pfx.data.length)⟩ : String)
        · rw [if_pos ⟨rfl, hhit.1, hhit.2⟩, if_pos hhit]
        · rw [if_neg (fun hc => hhit ⟨hc.2.1, hc.2.2⟩), if_neg hhit]
      · rw [show ((key, entry) :: es).foldl (extractStep pfx) acc =
          es.foldl (extractStep pfx) (extractStep pfx acc (key, entry)) from rfl]
        rw [o2]
        exact dictGet_insert_self _ _ _
    · have hkne : key ≠ kv.1 := by
        intro h
        exact hnd.1 (h ▸ List.mem_map_of_mem Prod.fst hmem')
      obtain ⟨iS, i2⟩ := ih (extractStep pfx acc kv) key entry hnd.2 hmem'
      constructor
      · intro S
        rw [show (kv :: es).foldl (extractStep pfx) acc =
          es.foldl (extractStep pfx) (extractStep pfx acc kv) from rfl]
        rw [iS S]
        have hstep : ((dictGet (extractStep pfx acc kv).1 S).bind
            (fun m => dictGet m key)) =
            ((dictGet acc.1 S).bind (fun m => dictGet m key)) := by
          show ((dictGet (addToSubsets acc.1 pfx kv.1 kv.2
            (entryTags ((dictGet kv.2.fields "keywords").getD "") pfx)) S).bind
              (fun m => dictGet m key)) = _
          rw [addToSubsets_lookup]
          exact if_neg (fun hc => hkne hc.1)
        rw [hstep]
      · rw [show (kv :: es).foldl (extractStep pfx) acc =
          es.foldl (extractStep pfx) (extractStep pfx acc kv) from rfl]
        exact i2

theorem entryTags_exists_iff (kws pfx S : String) :
    (∃ tag ∈ entryTags kws pfx,
        S = (⟨stripC (tag.data.drop pfx.data.length)⟩ : String)) ↔
    (∃ kw ∈ splitOnChar ',' kws.data, pfx.data.isPrefixOf (stripC kw) = true ∧
        S = (⟨stripC ((stripC kw).drop pfx.data.length)⟩ : String)) := by
  constructor
  · rintro ⟨tag, htag, hs⟩
    simp only [entryTags, List.mem_map, List.mem_filter] at htag
    obtain ⟨l, hl, htagl⟩ := htag
    obtain ⟨⟨kw, hkw, hkwl⟩, hpref⟩ := hl
    refine ⟨kw, hkw, ?_, ?_⟩
    · rw [hkwl]
      exact hpref
    · rw [hs, ← htagl]
      rw [hkwl]
  · rintro ⟨kw, hkw, hpref, hs⟩
    refine ⟨⟨stripC kw⟩, ?_, hs⟩
    simp only [entryTags, List.mem_map, List.mem_filter]
    exact ⟨stripC kw, ⟨⟨kw, hkw, rfl⟩, hpref⟩, rfl⟩

/-- C7: after keyword processing, `extract_tagged_entries` places an entry
in the subset named `S` exactly when one of its comma-separated keywords,
trimmed, starts with the tag string and its trimmed remainder is the
non-empty name `S`; an entry can therefore appear in several subsets, and
`all_entries` maps every input key to its entry regardless of keywords.
The `Nodup` hypothesis is the uniqueness of Python `dict` keys. -/
theorem extract_tagged_entries_spec (entries : List (String × BibEntry)) (pfx : String)
    (key S : String) (entry : BibEntry)
    (hnodup : (entries.map Prod.fst).Nodup) (hmem : (key, entry) ∈ entries) :
    ((∃ sub, dictGet (extract_tagged_entries entries pfx).1 S = some sub ∧
        dictGet sub key = some entry) ↔
      (S.data ≠ [] ∧
        ∃ kw ∈ splitOnChar ',' ((dictGet entry.fields "keywords").getD "").data,
          pfx.data.isPrefixOf (stripC kw) = true ∧
          S = (⟨stripC ((stripC kw).drop pfx.data.length)⟩ : String))) ∧
    dictGet (extract_tagged_entries entries pfx).2 key = some entry := by
  obtain ⟨hS, h2⟩ := extract_fold_this_key pfx entries ([], []) key entry hnodup hmem
  refine ⟨?_, h2⟩
  have hbind : ((dictGet (extract_tagged_entries entries pfx).1 S).bind
      (fun m => dictGet m key)) =
      (if S.data ≠ [] ∧
          ∃ tag ∈ entryTags ((dictGet entry.fields "keywords").getD "") pfx,
            S = (⟨stripC (tag.data.drop pfx.data.length)⟩ : String)
        then some entry
        else none) := by
    rw [show extract_tagged_entries entries pfx =
      entries.foldl (extractStep pfx) ([], []) from rfl]
    rw [hS S]
    rfl
  rw [← Option.bind_eq_some, hbind]

  by_cases hhit : S.data ≠ [] ∧
      ∃ tag ∈ entryTags ((dictGet entry.fields "keywords").getD "") pfx,
        S = (⟨stripC (tag.data.drop pfx.data.length)⟩ : String)
  · rw [if_pos hhit]
    constructor
    · intro _
      exact ⟨hhit.1, (entryTags_exists_iff _ pfx S).mp hhit.2⟩
    · intro _
      rfl
  · rw [if_neg hhit]
    constructor
    · intro h
      exact absurd h (by simp)
    · rintro ⟨h1, hex⟩
      exact absurd ⟨h1, (entryTags_exists_iff _ pfx S).mpr hex⟩ hhit

/-- Witness for C7 at a concrete two-entry bibliography, for the subset
named by the suffix of a prefixed keyword. -/
theorem extract_tagged_entries_spec_witness :
    ((([("k1", BibEntry.mk "a" [("keywords", "pub: x, topic:y")] []),
        ("k2", BibEntry.mk "b" [] [])] : List (String × BibEntry)).map Prod.fst).Nodup ∧
      ("k1", BibEntry.mk "a" [("keywords", "pub: x, topic:y")] []) ∈
        ([("k1", BibEntry.mk "a" [("keywords", "pub: x, topic:y")] []),
          ("k2", BibEntry.mk "b" [] [])] : List (String × BibEntry))) ∧
    (((∃ sub, dictGet (extract_tagged_entries
          [("k1", BibEntry.mk "a" [("keywords", "pub: x, topic:y")] []),
           ("k2", BibEntry.mk "b" [] [])] "pub:").1 "x" = some sub ∧
        dictGet sub "k1" = some (BibEntry.mk "a" [("keywords", "pub: x, topic:y")] [])) ↔
      (("x" : String).data ≠ [] ∧
        ∃ kw ∈ splitOnChar ','
            ((dictGet (BibEntry.mk "a" [("keywords", "pub: x, topic:y")] []).fields
              "keywords").getD "").data,
          ("pub:" : String).data.isPrefixOf (stripC kw) = true ∧
          ("x" : String) =
            (⟨stripC ((stripC kw).drop ("pub:" : String).data.length)⟩ : String))) ∧
    dictGet (extract_tagged_entries
        [("k1", BibEntry.mk "a" [("keywords", "pub: x, topic:y")] []),
         ("k2", BibEntry.mk "b" [] [])] "pub:").2 "k1" =
      some (BibEntry.mk "a" [("keywords", "pub: x, topic:y")] [])) :=
  ⟨⟨by decide, by decide⟩,
    extract_tagged_entries_spec
      [("k1", BibEntry.mk "a" [("keywords", "pub: x, topic:y")] []),
       ("k2", BibEntry.mk "b" [] [])] "pub:" "k1" "x"
      (BibEntry.mk "a" [("keywords", "pub: x, topic:y")] []) (by decide) (by decide)⟩

/-! Claim C6: totality of the parser. -/

theorem trackLine_sim (st : PState) (t : TrackState) (raw : String)
    (h : TrackInv st t) :
    ((processLine st raw).isSome = (trackLine t raw).isSome) ∧
    (∀ st' t', processLine st raw = some st' → trackLine t raw = some t' →
      TrackInv st' t') := by
  obtain ⟨hcs, hcu, hinv⟩ := h
  by_cases hbc : isBlankOrComment (pyRstrip raw) = true
  · refine ⟨by simp [processLine, trackLine, hbc], ?_⟩
    intro st' t' hp ht
    simp only [processLine, trackLine, hbc, if_true, Option.some.injEq] at hp ht
    subst hp
    subst ht
    exact ⟨hcs, hcu, hinv⟩
  · by_cases hsl : isSectionLine (pyRstrip raw) = true
    · refine ⟨by simp [processLine, trackLine, hbc, hsl], ?_⟩
      intro st' t' hp ht
      simp only [processLine, trackLine, hbc, hsl, Bool.false_eq_true, if_false,
        if_true, Option.some.injEq] at hp ht
      subst hp
      subst ht
      refine ⟨rfl, hcu, ?_⟩
      intro _
      refine ⟨[], dictGet_insert_self _ _ _, fun _ => rfl, ?_⟩
      intro hs _
      simp at hs
    · by_cases hul : isUnitLine (pyRstrip raw) = true
      · by_cases htr : truthy st.currentSection = true
        · obtain ⟨units, hgu, hsafe0, hsafe1⟩ := hinv htr
          have hcst : t.csT = true := hcs.trans htr
          refine ⟨by simp [processLine, trackLine, hbc, hsl, hul, htr, hgu], ?_⟩
          intro st' t' hp ht
          simp only [processLine, trackLine, hbc, hsl, hul, htr, hgu,
            Bool.false_eq_true, if_false, if_true, Option.some.injEq] at hp ht
          subst hp
          subst ht
          refine ⟨hcs, rfl, ?_⟩
          intro _
          refine ⟨dictInsert units (⟨(stripC (pyRstrip raw).data).dropLast⟩ : String) [],
            dictGet_insert_self _ _ _, ?_, ?_⟩
          · intro hs
            rw [hcst] at hs
            simp at hs
          · intro _ _
            simp [dictGet_insert_self]
        · have hcst : t.csT = false := by
            rw [hcs]
            exact Bool.not_eq_true _ ▸ (Bool.of_not_eq_true htr)
          refine ⟨by simp [processLine, trackLine, hbc, hsl, hul, htr], ?_⟩
          intro st' t' hp ht
          simp only [processLine, trackLine, hbc, hsl, hul, htr, Bool.false_eq_true,
            if_false, if_true, Option.some.injEq] at hp ht
          subst hp
          subst ht
          refine ⟨hcs, rfl, ?_⟩
          intro htr'
          exact absurd htr' htr
      · by_cases hpl : isPropLine (pyRstrip raw) = true
        · by_cases hA : (truthy st.currentSection && truthy st.currentUnit) = true
          · have hA1 : truthy st.currentSection = true := (Bool.and_eq_true _ _ ▸ hA).1
            have hA2 : truthy st.currentUnit = true := (Bool.and_eq_true _ _ ▸ hA).2
            obtain ⟨units, hgu, hsafe0, hsafe1⟩ := hinv hA1
            by_cases hsafe : t.safe = true
            · have hx := hsafe1 hsafe hA2
              rw [Option.isSome_iff_exists] at hx
              obtain ⟨props, hgp⟩ := hx
              have hBf : (t.csT && t.cuT && !t.safe) = false := by
                rw [hsafe]
                simp
              refine ⟨by simp [processLine, trackLine, hbc, hsl, hul, hpl, hA, hgu,
                hgp, hBf], ?_⟩
              intro st' t' hp ht
              simp only [processLine, trackLine, hbc, hsl, hul, hpl, hA, hgu, hgp,
                hBf, Bool.false_eq_true, if_false, if_true, Option.some.injEq] at hp ht
              subst hp
              subst ht
              refine ⟨hcs, hcu, ?_⟩
              intro _
              refine ⟨_, dictGet_insert_self _ _ _, ?_, ?_⟩
              · intro hs
                rw [hsafe] at hs
                simp at hs
              · intro _ _
                simp [dictGet_insert_self]
            · have hsafef : t.safe = false := Bool.of_not_eq_true hsafe
              have hunits : units = [] := hsafe0 hsafef
              have hBt : (t.csT && t.cuT && !t.safe) = true := by
                rw [hcs, hcu, hA1, hA2, hsafef]
                rfl
              refine ⟨?_, ?_⟩
              · simp [processLine, trackLine, hbc, hsl, hul, hpl, hA, hgu, hunits,
                  hBt, dictGet]
              · intro st' t' hp ht
                simp [trackLine, hbc, hsl, hul, hpl, hBt] at ht
          · have hB : (t.csT && t.cuT && !t.safe) = false := by
              rw [hcs, hcu]
              have hAf : (truthy st.currentSection && truthy st.currentUnit) = false :=
                Bool.of_not_eq_true hA
              revert hAf
              cases truthy st.currentSection <;> cases truthy st.currentUnit <;> simp
            refine ⟨by simp [processLine, trackLine, hbc, hsl, hul, hpl, hA, hB], ?_⟩
            intro st' t' hp ht
            simp only [processLine, trackLine, hbc, hsl, hul, hpl, hA, hB,
              Bool.false_eq_true, if_false, if_true, Option.some.injEq] at hp ht
            subst hp
            subst ht
            exact ⟨hcs, hcu, hinv⟩
        · refine ⟨by simp [processLine, trackLine, hbc, hsl, hul, hpl], ?_⟩
          intro st' t' hp ht
          simp only [processLine, trackLine, hbc, hsl, hul, hpl, Bool.false_eq_true,
            if_false, Option.some.injEq] at hp ht
          subst hp
          subst ht
          exact ⟨hcs, hcu, hinv⟩

theorem loadFrom_track_isSome (lines : List String) :
    ∀ st t, TrackInv st t →
    (loadFrom st lines).isSome = (trackFrom t lines).isSome := by
  induction lines with
  | nil =>
    intro st t _
    rfl
  | cons l ls ih =>
    intro st t h
    obtain ⟨hsome, hinv⟩ := trackLine_sim st t l h
    cases hp : processLine st l with
    | none =>
      cases ht : trackLine t l with
      | none => simp [loadFrom, trackFrom, hp, ht]
      | some t' =>
        rw [hp, ht] at hsome
        simp at hsome
    | some st' =>
      cases ht : trackLine t l with
      | none =>
        rw [hp, ht] at hsome
        simp at hsome
      | some t' =>
        simp only [loadFrom, trackFrom, hp, ht]
        exact ih st' t' (hinv st' t' hp ht)

/-- C6 counterexample: `load_metadata` does not return on every input —
after a unit line, a duplicated section line resets the section's mapping,
and the following property line indexes the vanished unit, which raises
`KeyError` in the Python source (modelled by `none`). -/
theorem load_metadata_raises_counterexample :
    load_metadata ["a:", "  b:", "a:", "    k: v"] = none := by
  decide

/-- C6 (amended): `load_metadata` returns a mapping without raising
exactly on the inputs accepted by `goodLines`: unrecognised lines are
silently skipped, and the parse completes unless a property line is
processed with truthy current section and unit while no unit line has
occurred since the most recent section line (then the Python code raises
`KeyError`). -/
theorem load_metadata_totality_characterization (lines : List String) :
    (load_metadata lines).isSome = goodLines lines := by
  have hinit : TrackInv ⟨[], none, none⟩ ⟨false, false, false⟩ := by
    refine ⟨rfl, rfl, ?_⟩
    intro hcontra
    exact absurd hcontra (by decide)
  have hsim := loadFrom_track_isSome lines ⟨[], none, none⟩ ⟨false, false, false⟩ hinit
  unfold load_metadata goodLines
  cases hl : loadFrom ⟨[], none, none⟩ lines with
  | none =>
    rw [hl] at hsim
    simp [← hsim]
  | some st =>
    rw [hl] at hsim
    simp [← hsim]
